import Mathlib

/-!
Verification development for the tree-of-thought search controller in
`src/tot/methods/bfs.py` together with the task hooks it drives
(`src/tot/tasks/thyroid_lab_task.py`).

Embedding conventions:
* Python strings are Lean `String`s; `str.strip()` is `String.trim`,
  `str.lower()` is `String.toLower` (ASCII view, which covers every input
  handled in this development), `split(c)` is `String.splitOn`.
* Python float scores are idealised as `ℚ`; the values manipulated here are
  small decimal literals, for which rational arithmetic agrees with IEEE
  behaviour on everything the theorems state.
* The external language-model client (`tot.models.completion`) is an oracle
  `Nat → Request → String`: the response to the k-th call of the run.  The
  mutable state visible to the algorithm - the task's value cache plus the
  log of completion requests issued so far - is threaded explicitly as `St`.
* `np.random.choice` is abstracted by an arbitrary draw function passed in
  as a parameter; its input validation (which decides raise vs return) is
  modelled explicitly.
* Python exceptions surface as `Except (String × St)`: the message plus the
  state of side effects at the moment of the raise.
-/

namespace ToT

/-- A request as it reaches `tot.models.completion(prompt, stop=stop, model=model)`.
Note the source's `gpt` wrapper never forwards its `temperature` argument, so
a request carries no temperature field. -/
structure Request where
  prompt : String
  stop : Option String
  model : Option String
deriving DecidableEq, Repr

/-- The mutable state the search algorithm can observe or affect:
`cache` is `task.value_cache` (a Python dict, modelled as an association
list with most-recent binding first), `calls` is the chronological log of
completion requests issued to the generator. -/
structure St where
  cache : List (String × ℚ)
  calls : List Request
deriving DecidableEq, Repr

/-- Responses of the external generator: the answer to the k-th completion
call of the run, as a function of the request. -/
def Oracle : Type := Nat → Request → String

/-- Python dict lookup on the association-list model (first binding wins,
matching insertion at the front). -/
def cacheLookup (k : String) : List (String × ℚ) → Option ℚ
  | [] => none
  | (k2, v) :: rest => if k = k2 then some v else cacheLookup k rest

/-- The duck-typed Task capability set consumed by `bfs.py` (spec §6).
`value_cache` lives in `St`; everything else is pure string plumbing. -/
structure Task where
  steps : Nat
  stops : Nat → Option String
  get_input : Nat → String
  get_prompt : String → Nat → String → String
  value_prompt_wrap : String → String → String
  value_outputs_unwrap : String → String → List String → List ℚ
  propose_prompt_wrap : String → String → String
  vote_prompt_wrap : String → List String → String
  vote_outputs_unwrap : List String → Nat → List ℚ

/-- One call of `tot.models.completion`: consumes the next oracle response and
logs the request. -/
def completion (o : Oracle) (req : Request) (st : St) : String × St :=
  (o st.calls.length req, { st with calls := st.calls ++ [req] })

/-- The loop body of `bfs.gpt`: n sequential completion calls, each output
stripped. -/
def gptLoop (o : Oracle) (prompt : String) (stop : Option String)
    (model : Option String) : Nat → St → List String × St
  | 0, st => ([], st)
  | Nat.succ n, st =>
    let r := completion o ⟨prompt, stop, model⟩ st
    let rest := gptLoop o prompt stop model n r.2
    (r.1.trim :: rest.1, rest.2)

/-- `bfs.gpt(prompt, n, stop, model, temperature)`: the temperature parameter
is accepted and ignored, exactly as in the source (it is never passed on to
`completion`). -/
def gpt (o : Oracle) (prompt : String) (n : Nat) (stop : Option String)
    (model : Option String) (temperature : Int) (st : St) : List String × St :=
  gptLoop o prompt stop model n st

/-- `bfs.get_value`: build the value prompt, consult the cache when
`cache_value` is set, otherwise sample `n_evaluate_sample` evaluations,
reduce a list result to its arithmetic mean (0 when empty), and store the
scalar back into the cache. -/
def get_value (task : Task) (o : Oracle) (x y : String) (n_evaluate_sample : Nat)
    (cache_value : Bool) (model : Option String) (temperature : Int) (st : St) :
    ℚ × St :=
  let value_prompt := task.value_prompt_wrap x y
  match (if cache_value then cacheLookup value_prompt st.cache else none) with
  | some v => (v, st)
  | none =>
    let r := gpt o value_prompt n_evaluate_sample none model temperature st
    let vals := task.value_outputs_unwrap x y r.1
    let value : ℚ := if vals.isEmpty then 0 else vals.sum / (vals.length : ℚ)
    (value,
      if cache_value then { r.2 with cache := (value_prompt, value) :: r.2.cache }
      else r.2)

/-- The loop of `bfs.get_values`: `seen` is the key set of the function-local
`local_value_cache` dict (only membership of a candidate `y` is ever tested
on it, so only the keys are modelled). A candidate already seen in this batch
scores 0 without any state change; a fresh one goes through `get_value`. -/
def getValuesGo (task : Task) (o : Oracle) (x : String) (n : Nat) (cv : Bool)
    (model : Option String) (temperature : Int) :
    List String → List String → St → List ℚ × St
  | [], _, st => ([], st)
  | y :: ys, seen, st =>
    if y ∈ seen then
      let r := getValuesGo task o x n cv model temperature ys seen st
      ((0 : ℚ) :: r.1, r.2)
    else
      let r1 := get_value task o x y n cv model temperature st
      let r := getValuesGo task o x n cv model temperature ys (y :: seen) r1.2
      (r1.1 :: r.1, r.2)

/-- `bfs.get_values(task, x, ys, n_evaluate_sample, cache_value)`. -/
def get_values (task : Task) (o : Oracle) (x : String) (ys : List String)
    (n_evaluate_sample : Nat) (cache_value : Bool) (model : Option String)
    (temperature : Int) (st : St) : List ℚ × St :=
  getValuesGo task o x n_evaluate_sample cache_value model temperature ys [] st

/-- `bfs.get_votes`: one comparative prompt over the whole batch, no cache. -/
def get_votes (task : Task) (o : Oracle) (x : String) (ys : List String)
    (n_evaluate_sample : Nat) (model : Option String) (temperature : Int)
    (st : St) : List ℚ × St :=
  let vote_prompt := task.vote_prompt_wrap x ys
  let r := gpt o vote_prompt n_evaluate_sample none model temperature st
  (task.vote_outputs_unwrap r.1 ys.length, r.2)

/-- `bfs.get_proposals`: one generation, split on newline, one candidate per
resulting line (empty lines included), each line rejoined to the parent with
its own trailing newline.  The source computes the propose prompt twice
(lines 50-51); the second pure recomputation is observationally void and is
modelled by a single binding. -/
def get_proposals (task : Task) (o : Oracle) (x y : String)
    (model : Option String) (temperature : Int) (st : St) : List String × St :=
  let propose_prompt := task.propose_prompt_wrap x y
  let r := gpt o propose_prompt 1 none model temperature st
  let proposals := (r.1.headD "").splitOn "\n"
  (proposals.map (fun p => y ++ p ++ "\n"), r.2)

/-- `bfs.get_samples`: n independent continuations appended to the parent. -/
def get_samples (task : Task) (o : Oracle) (x y : String) (stepIdx : Nat)
    (n_generate_sample : Nat) (stop : Option String) (model : Option String)
    (temperature : Int) (st : St) : List String × St :=
  let prompt := task.get_prompt x stepIdx y
  let r := gpt o prompt n_generate_sample stop model temperature st
  (r.1.map (fun s => y ++ s), r.2)

/-- First index of the maximum, `np.argmax` (ties resolved to the earliest
index; the guarded call site never reaches the empty case). -/
def argmaxGo (b : ℚ) (bi i : Nat) : List ℚ → Nat
  | [] => bi
  | v :: vs => if b < v then argmaxGo v i (i + 1) vs else argmaxGo b bi (i + 1) vs

/-- `np.argmax` on a score list. -/
def argmaxIdx : List ℚ → Nat
  | [] => 0
  | v :: vs => argmaxGo v 0 1 vs

/-- Stable descending insertion for candidate indices: `a` goes in front of
the first element whose score does not exceed `a`'s strictly, so among equal
scores the earlier-processed (original-order-earlier) index stays first. -/
def insertIdxDesc (v : Nat → ℚ) (a : Nat) : List Nat → List Nat
  | [] => [a]
  | b :: bs => if v b ≤ v a then a :: b :: bs else b :: insertIdxDesc v a bs

/-- Model of Python `sorted(ids, key=lambda i: v i, reverse=True)`: Python
guarantees a stable sort, which a stable insertion sort realises exactly. -/
def sortIdxDesc (v : Nat → ℚ) : List Nat → List Nat
  | [] => []
  | a :: as => insertIdxDesc v a (sortIdxDesc v as)

/-- Greedy selection, `sorted(ids, key=lambda x: values[x], reverse=True)[:K]`. -/
def greedy_select (values : List ℚ) (ids : List Nat) (K : Nat) : List Nat :=
  (sortIdxDesc (fun i => values.getD i 0) ids).take K

/-- The combined order realised by a stable descending sort of indices that
were originally in increasing order: strictly larger score first, equal
scores resolved by the original index order. -/
def stableDescRel (v : Nat → ℚ) (i j : Nat) : Prop :=
  v j < v i ∨ (v i = v j ∧ i < j)

/-- Probabilistic selection, `np.random.choice(ids, size, p=values/sum(values))`.
`rchoice` abstracts the RNG draw; the branches model numpy's validation of the
normalised vector: a zero sum makes every entry of `ps` non-finite (or leaves
`ids` empty), which `np.random.choice` rejects with a ValueError, and any
negative entry of `ps` is rejected as well.  When the sum is nonzero the exact
rational `ps` sums to 1, so numpy's sum-tolerance check passes. -/
def sample_select (rchoice : List Nat → List ℚ → Nat → List Nat)
    (values : List ℚ) (ids : List Nat) (size : Nat) : Except String (List Nat) :=
  let s := values.sum
  if s = 0 then
    .error "ValueError: probabilities contain NaN"
  else
    let ps := values.map (fun v => v / s)
    if ps.all (fun p => 0 ≤ p) then
      .ok (rchoice ids ps size)
    else
      .error "ValueError: probabilities are not non-negative"

/-- The `args` namespace object handed to `bfs.solve`. -/
structure Args where
  backend : Option String
  temperature : Int
  method_generate : String
  method_evaluate : String
  method_select : String
  n_generate_sample : Nat
  n_evaluate_sample : Nat
  n_select_sample : Nat
deriving DecidableEq, Repr

/-- One step trace record, the dict appended to `infos` each iteration. -/
structure StepInfo where
  step : Nat
  x : String
  ys : List String
  new_ys : List String
  values : List ℚ
  select_new_ys : List String
deriving DecidableEq, Repr

/-- State-threading map used for the per-parent generation comprehensions. -/
def mapGen (f : String → St → List String × St) :
    List String → St → List (List String) × St
  | [], st => ([], st)
  | y :: ys, st =>
    let r := f y st
    let rr := mapGen f ys r.2
    (r.1 :: rr.1, rr.2)

/-- One iteration of the `for step in range(task.steps)` loop in `bfs.solve`:
generation, evaluation, selection, the verbose-print block, in source order.
An unrecognised method string leaves the corresponding Python local unbound
and the very next use raises a NameError; the verbose-print block unpacks
`zip(*sorted(zip(new_ys, values), ...))`, which raises a ValueError when
`new_ys` is empty (there is nothing to unpack into the two names). -/
def solveStep (args : Args) (task : Task) (o : Oracle)
    (rchoice : List Nat → List ℚ → Nat → List Nat) (x : String)
    (to_print : Bool) (stepIdx : Nat) (ys : List String) (st : St) :
    Except (String × St) (List String × List ℚ × List String × St) :=
  let gen : Except (String × St) (List String × St) :=
    if args.method_generate = "sample" then
      let r := mapGen (fun y st => get_samples task o x y stepIdx
        args.n_generate_sample (task.stops stepIdx) args.backend
        args.temperature st) ys st
      .ok (r.1.flatten, r.2)
    else if args.method_generate = "propose" then
      let r := mapGen (fun y st => get_proposals task o x y args.backend
        args.temperature st) ys st
      .ok (r.1.flatten, r.2)
    else
      .error ("NameError: name new_ys is not defined", st)
  match gen with
  | .error e => .error e
  | .ok (new_ys, st1) =>
    let ev : Except (String × St) (List ℚ × St) :=
      if args.method_evaluate = "vote" then
        .ok (get_votes task o x new_ys args.n_evaluate_sample args.backend
          args.temperature st1)
      else if args.method_evaluate = "value" then
        .ok (get_values task o x new_ys args.n_evaluate_sample true args.backend
          args.temperature st1)
      else
        .error ("NameError: name values is not defined", st1)
    match ev with
    | .error e => .error e
    | .ok (values, st2) =>
      let ids := List.range new_ys.length
      let sel : Except (String × St) (List Nat) :=
        if args.method_select = "sample" then
          match sample_select rchoice values ids args.n_select_sample with
          | .ok l => .ok l
          | .error e => .error (e, st2)
        else if args.method_select = "greedy" then
          .ok (greedy_select values ids args.n_select_sample)
        else
          .error ("NameError: name select_ids is not defined", st2)
      match sel with
      | .error e => .error e
      | .ok select_ids =>
        let select_new_ys := select_ids.map (fun i => new_ys.getD i "")
        if to_print && new_ys.isEmpty then
          .error ("ValueError: not enough values to unpack", st2)
        else
          .ok (new_ys, values, select_new_ys, st2)

/-- The step loop of `bfs.solve`, carrying the frontier, the trace list, and
the most recent `(new_ys, values)` pair (Python locals that survive the loop;
`none` models the not-yet-bound state before the first iteration). -/
def solveLoop (args : Args) (task : Task) (o : Oracle)
    (rchoice : List Nat → List ℚ → Nat → List Nat) (x : String)
    (to_print : Bool) :
    List Nat → List String → List StepInfo →
    Option (List String × List ℚ) → St →
    Except (String × St)
      (Option (List String × List ℚ) × List String × List StepInfo × St)
  | [], ys, infos, last, st => .ok (last, ys, infos, st)
  | i :: rest, ys, infos, last, st =>
    match solveStep args task o rchoice x to_print i ys st with
    | .error e => .error e
    | .ok (new_ys, values, select_new_ys, st2) =>
      solveLoop args task o rchoice x to_print rest select_new_ys
        (infos ++ [⟨i, x, ys, new_ys, values, select_new_ys⟩])
        (some (new_ys, values)) st2

/-- `bfs.solve`: run the loop for `range(task.steps)`, then pick the best
final candidate as `new_ys[np.argmax(values)]` over the last step's full
candidate list, `None` when that list is empty.  With `task.steps = 0` the
post-loop read of `new_ys` raises a NameError, as in the source. -/
def solve (args : Args) (task : Task) (idx : Nat) (to_print : Bool)
    (o : Oracle) (rchoice : List Nat → List ℚ → Nat → List Nat) (st : St) :
    Except (String × St) (Option String × List StepInfo × St) :=
  let x := task.get_input idx
  match solveLoop args task o rchoice x to_print (List.range task.steps)
      [""] [] none st with
  | .error e => .error e
  | .ok (last, _ys, infos, stF) =>
    match last with
    | none => .error ("NameError: name new_ys is not defined", stF)
    | some (new_ys, values) =>
      let best := if new_ys.isEmpty then none
        else some (new_ys.getD (argmaxIdx values) "")
      .ok (best, infos, stF)

/-! Task hooks of `ThyroidLabTask` needed by the claims: the value-output
parser (`value_outputs_unwrap`, thyroid_lab_task.py lines 363-376). -/

/-- Word characters for the regex word boundary in `re.match(r'^1\b', s)`
(ASCII view of `\w`). -/
def isWordChar (c : Char) : Bool := c.isAlphanum || c = '_'

/-- Python `re.match(r'^d\b', s)` for a single digit `d`: the string starts
with `d` and the next character (if any) is not a word character. -/
def startsDigitBoundary (d : Char) (s : String) : Bool :=
  match s.data with
  | [] => false
  | c :: rest =>
    c = d &&
      (match rest with
       | [] => true
       | c2 :: _ => !(isWordChar c2))

/-- Numeric value of a digit run. -/
def digitsToNat (ds : List Char) : Nat :=
  ds.foldl (fun acc c => acc * 10 + (c.toNat - 48)) 0

/-- Splits the longest leading digit run off a character list. -/
def splitDigits : List Char → List Char × List Char
  | [] => ([], [])
  | c :: cs =>
    if c.isDigit then
      let r := splitDigits cs
      (c :: r.1, r.2)
    else ([], c :: cs)

/-- Signed digit run covering the whole remaining input, for the exponent. -/
def parseSignedDigits (cs : List Char) : Option Int :=
  let (sg, cs2) : Int × List Char :=
    match cs with
    | '+' :: r => (1, r)
    | '-' :: r => (-1, r)
    | _ => (1, cs)
  let (ds, rest) := splitDigits cs2
  if ds.isEmpty || !rest.isEmpty then none else some (sg * digitsToNat ds)

/-- Optional exponent suffix `(e|E)[sign]digits` consuming the whole rest. -/
def parseExpSuffix : List Char → Option Int
  | [] => some 0
  | 'e' :: rest => parseSignedDigits rest
  | 'E' :: rest => parseSignedDigits rest
  | _ => none

/-- CPython `float(s)` on finite decimal literals
`[sign] (digits [. digits] | . digits) [(e|E) [sign] digits]` with
surrounding whitespace stripped, returning the exact rational value.
Special forms (`inf`, `nan`, underscore digit separators, non-ASCII digits)
are outside the modelled scope and count as unparseable; none of them occur
in the inputs any theorem below touches. -/
def pyFloat (s : String) : Option ℚ :=
  let cs := s.trim.data
  let (sign, cs1) : ℚ × List Char :=
    match cs with
    | '+' :: r => (1, r)
    | '-' :: r => (-1, r)
    | _ => (1, cs)
  let (ip, cs2) := splitDigits cs1
  let (fp, cs3) : List Char × List Char :=
    match cs2 with
    | '.' :: r => splitDigits r
    | _ => ([], cs2)
  if ip.isEmpty && fp.isEmpty then none
  else
    match parseExpSuffix cs3 with
    | none => none
    | some e =>
      some (sign * ((digitsToNat ip : ℚ) +
        (digitsToNat fp : ℚ) / (10 : ℚ) ^ fp.length) * (10 : ℚ) ^ e)

/-- Per-output score parse of `ThyroidLabTask.value_outputs_unwrap`:
strip and lowercase, score 1.0 on `^1\b`, 0.0 on `^0\b`, else try
`float(output)`, and default to 0.0 when that raises. -/
def thyroidParse (output : String) : ℚ :=
  let o := output.trim.toLower
  if startsDigitBoundary '1' o then 1
  else if startsDigitBoundary '0' o then 0
  else
    match pyFloat o with
    | some q => q
    | none => 0

/-- `ThyroidLabTask.value_outputs_unwrap(x, y, value_outputs)`: one parsed
score per raw output (the `x`, `y` arguments are unused in the source too). -/
def thyroid_value_outputs_unwrap (x y : String) (value_outputs : List String) :
    List ℚ :=
  value_outputs.map thyroidParse

/-- Modelled from the spec (§7 EvaluationParseFailure): "averaging proceeds
over the remaining valid samples (or yields 0.0 if none are valid)" - the
mean over only the parseable samples, with unparseable ones excluded from
numerator and denominator alike.  Stated only to compare that spec reading
against the code's reducer; the code itself is `get_value` above. -/
def meanOverValidSamples (outs : List String) : ℚ :=
  let vs := outs.filterMap (fun output =>
    let o := output.trim.toLower
    if startsDigitBoundary '1' o then some 1
    else if startsDigitBoundary '0' o then some 0
    else pyFloat o)
  if vs.isEmpty then 0 else vs.sum / (vs.length : ℚ)

/-- The key set of `local_value_cache` after one batch prefix has been
processed starting from `seen`: each candidate not yet seen is added. -/
def seenAfter (seen : List String) : List String → List String
  | [] => seen
  | y :: ys => if y ∈ seen then seenAfter seen ys else seenAfter (y :: seen) ys

/-- The sublist of candidates that are first occurrences relative to `seen`:
later duplicates (and members of `seen`) are dropped. -/
def firstOccurrencesFrom (seen : List String) : List String → List String
  | [] => []
  | y :: ys =>
    if y ∈ seen then firstOccurrencesFrom seen ys
    else y :: firstOccurrencesFrom (y :: seen) ys

/-! Concrete instances used by witnesses and counterexamples. -/

/-- A deterministic stand-in for the `np.random.choice` draw: `size` copies
of the first id. -/
def rcHead : List Nat → List ℚ → Nat → List Nat :=
  fun ids _ n => List.replicate n (ids.headD 0)

/-- A task whose value-prompt builder strips the candidate before embedding
it, exactly as `ThyroidLabTask.value_prompt_wrap` does via
`_sanitize_free_text` (which ends in `.strip()`), so two distinct candidate
texts can produce the same evaluation prompt. -/
def stripTask : Task where
  steps := 1
  stops := fun _ => none
  get_input := fun _ => "X"
  get_prompt := fun x _ y => x ++ y
  value_prompt_wrap := fun x y => x ++ y.trim
  value_outputs_unwrap := thyroid_value_outputs_unwrap
  propose_prompt_wrap := fun x y => x ++ y
  vote_prompt_wrap := fun x _ => x
  vote_outputs_unwrap := fun _ n => List.replicate n 0

/-- A generator that always answers "1" (a valid top score). -/
def onesOracle : Oracle := fun _ _ => "1"

/-- Minimal single-step task for end-to-end runs: generation prompt is
input ++ candidate, value prompt is "V" ++ candidate, an output scores 1
when it is exactly "1". -/
def demoTask : Task where
  steps := 1
  stops := fun _ => none
  get_input := fun _ => "Q"
  get_prompt := fun x _ y => x ++ y
  value_prompt_wrap := fun _ y => "V" ++ y
  value_outputs_unwrap := fun _ _ outs =>
    outs.map (fun o => if o = "1" then 1 else 0)
  propose_prompt_wrap := fun x y => x ++ y
  vote_prompt_wrap := fun x _ => x
  vote_outputs_unwrap := fun _ n => List.replicate n 0

/-- Generator for the demo run: continuation "A" on the first call, score
"1" on every later call. -/
def demoOracle : Oracle := fun k _ => if k = 0 then "A" else "1"

/-- Configuration for the demo run: sample generation, value evaluation,
greedy selection, one sample each. -/
def demoArgs : Args where
  backend := none
  temperature := 0
  method_generate := "sample"
  method_evaluate := "value"
  method_select := "greedy"
  n_generate_sample := 1
  n_evaluate_sample := 1
  n_select_sample := 1

/-- A task whose value prompt is constant and whose value parser is the
thyroid one; used to exercise the parse-failure path. -/
def parseTask : Task where
  steps := 1
  stops := fun _ => none
  get_input := fun _ => "x"
  get_prompt := fun x _ y => x ++ y
  value_prompt_wrap := fun _ _ => "P"
  value_outputs_unwrap := thyroid_value_outputs_unwrap
  propose_prompt_wrap := fun x y => x ++ y
  vote_prompt_wrap := fun x _ => x
  vote_outputs_unwrap := fun _ n => List.replicate n 0

/-- Generator answering "1" then "hello" (the second is unparseable). -/
def parseOracle : Oracle := fun k _ => if k = 0 then "1" else "hello"

/-- Generator whose proposal text contains an empty middle line. -/
def blankLineOracle : Oracle := fun _ _ => "a\n\nb"

/-! Auxiliary lemmas. -/

theorem gptLoop_length (o : Oracle) (p : String) (s : Option String)
    (m : Option String) : ∀ (n : Nat) (st : St),
    (gptLoop o p s m n st).1.length = n := by
  intro n
  induction n with
  | zero => intro st; rfl
  | succ k ih => intro st; simpa [gptLoop] using ih _

theorem gpt_length (o : Oracle) (p : String) (n : Nat) (s m : Option String)
    (t : Int) (st : St) : (gpt o p n s m t st).1.length = n :=
  gptLoop_length o p s m n st

theorem insertIdxDesc_length (v : Nat → ℚ) (a : Nat) :
    ∀ l : List Nat, (insertIdxDesc v a l).length = l.length + 1 := by
  intro l
  induction l with
  | nil => rfl
  | cons b bs ih =>
    by_cases h : v b ≤ v a <;> simp [insertIdxDesc, h, ih]

theorem sortIdxDesc_length (v : Nat → ℚ) :
    ∀ l : List Nat, (sortIdxDesc v l).length = l.length := by
  intro l
  induction l with
  | nil => rfl
  | cons a as ih => simp [sortIdxDesc, insertIdxDesc_length, ih]

theorem mem_insertIdxDesc (v : Nat → ℚ) (a c : Nat) :
    ∀ l : List Nat, c ∈ insertIdxDesc v a l ↔ c = a ∨ c ∈ l := by
  intro l
  induction l with
  | nil => simp [insertIdxDesc]
  | cons b bs ih =>
    by_cases h : v b ≤ v a <;> simp [insertIdxDesc, h, ih] <;> tauto

theorem mem_sortIdxDesc (v : Nat → ℚ) (c : Nat) :
    ∀ l : List Nat, c ∈ sortIdxDesc v l ↔ c ∈ l := by
  intro l
  induction l with
  | nil => simp [sortIdxDesc]
  | cons a as ih => simp [sortIdxDesc, mem_insertIdxDesc, ih]

theorem insertIdxDesc_pairwise (v : Nat → ℚ) (a : Nat) :
    ∀ l : List Nat, l.Pairwise (stableDescRel v) → (∀ y ∈ l, a < y) →
      (insertIdxDesc v a l).Pairwise (stableDescRel v) := by
  intro l
  induction l with
  | nil => intro _ _; simp [insertIdxDesc, List.pairwise_singleton]
  | cons b bs ih =>
    intro hp hlt
    rcases List.pairwise_cons.mp hp with ⟨hb, hbs⟩
    by_cases h : v b ≤ v a
    · rw [insertIdxDesc, if_pos h]
      refine List.pairwise_cons.mpr ⟨?_, hp⟩
      intro y hy
      rcases List.mem_cons.mp hy with rfl | hy2
      · rcases lt_or_eq_of_le h with hlt2 | heq
        · exact Or.inl hlt2
        · exact Or.inr ⟨heq.symm, hlt _ (List.mem_cons_self _ _)⟩
      · rcases hb y hy2 with hyb | ⟨hyb, _⟩
        · rcases lt_or_eq_of_le h with hlt2 | heq
          · exact Or.inl (lt_trans hyb hlt2)
          · exact Or.inl (heq ▸ hyb)
        · rcases lt_or_eq_of_le h with hlt2 | heq
          · exact Or.inl (hyb ▸ hlt2)
          · exact Or.inr ⟨heq.symm.trans hyb, hlt y (List.mem_cons_of_mem _ hy2)⟩
    · rw [insertIdxDesc, if_neg h]
      refine List.pairwise_cons.mpr ⟨?_, ih hbs (fun y hy => hlt y (List.mem_cons_of_mem _ hy))⟩
      intro y hy
      rcases (mem_insertIdxDesc v a y bs).mp hy with rfl | hy2
      · exact Or.inl (lt_of_not_le h)
      · exact hb y hy2

theorem sortIdxDesc_pairwise (v : Nat → ℚ) :
    ∀ l : List Nat, l.Pairwise (· < ·) →
      (sortIdxDesc v l).Pairwise (stableDescRel v) := by
  intro l
  induction l with
  | nil => intro _; simp [sortIdxDesc]
  | cons a as ih =>
    intro hp
    rcases List.pairwise_cons.mp hp with ⟨ha, has⟩
    refine insertIdxDesc_pairwise v a _ (ih has) ?_
    intro y hy
    exact ha y ((mem_sortIdxDesc v y as).mp hy)

theorem getValuesGo_length (task : Task) (o : Oracle) (x : String) (n : Nat)
    (cv : Bool) (m : Option String) (t : Int) :
    ∀ (ys seen : List String) (st : St),
      (getValuesGo task o x n cv m t ys seen st).1.length = ys.length := by
  intro ys
  induction ys with
  | nil => intro seen st; rfl
  | cons y ys ih =>
    intro seen st
    by_cases h : y ∈ seen <;> simp [getValuesGo, h, ih]

theorem getValuesGo_append (task : Task) (o : Oracle) (x : String) (n : Nat)
    (cv : Bool) (m : Option String) (t : Int) :
    ∀ (as bs seen : List String) (st : St),
      getValuesGo task o x n cv m t (as ++ bs) seen st =
        ((getValuesGo task o x n cv m t as seen st).1 ++
          (getValuesGo task o x n cv m t bs (seenAfter seen as)
            (getValuesGo task o x n cv m t as seen st).2).1,
         (getValuesGo task o x n cv m t bs (seenAfter seen as)
            (getValuesGo task o x n cv m t as seen st).2).2) := by
  intro as
  induction as with
  | nil => intro bs seen st; rfl
  | cons a as ih =>
    intro bs seen st
    by_cases h : a ∈ seen <;>
      simp [getValuesGo, seenAfter, h, ih]

theorem mem_seenAfter (y : String) :
    ∀ (as seen : List String), y ∈ seenAfter seen as ↔ y ∈ as ∨ y ∈ seen := by
  intro as
  induction as with
  | nil => intro seen; simp [seenAfter]
  | cons z as ih =>
    intro seen
    by_cases hz : z ∈ seen
    · rw [seenAfter, if_pos hz, ih]
      constructor
      · tauto
      · rintro (hc | hs)
        · rcases List.mem_cons.mp hc with rfl | h2
          · exact Or.inr hz
          · exact Or.inl h2
        · exact Or.inr hs
    · rw [seenAfter, if_neg hz, ih]
      constructor
      · rintro (h1 | h2)
        · exact Or.inl (List.mem_cons_of_mem _ h1)
        · rcases List.mem_cons.mp h2 with rfl | h3
          · exact Or.inl (List.mem_cons_self _ _)
          · exact Or.inr h3
      · rintro (h1 | h2)
        · rcases List.mem_cons.mp h1 with rfl | h3
          · exact Or.inr (List.mem_cons_self _ _)
          · exact Or.inl h3
        · exact Or.inr (List.mem_cons_of_mem _ h2)

theorem getValuesGo_state_firstOccs (task : Task) (o : Oracle) (x : String)
    (n : Nat) (cv : Bool) (m : Option String) (t : Int) :
    ∀ (ys seen : List String) (st : St),
      (getValuesGo task o x n cv m t ys seen st).2 =
        (getValuesGo task o x n cv m t (firstOccurrencesFrom seen ys) seen st).2 := by
  intro ys
  induction ys with
  | nil => intro seen st; rfl
  | cons y ys ih =>
    intro seen st
    by_cases h : y ∈ seen
    · rw [firstOccurrencesFrom, if_pos h]
      simpa [getValuesGo, h] using ih seen st
    · rw [firstOccurrencesFrom, if_neg h]
      simp only [getValuesGo, if_neg h]
      exact ih (y :: seen) _

theorem gpt_temperature_irrelevant (o : Oracle) (p : String) (n : Nat)
    (s m : Option String) (t : Int) (st : St) :
    gpt o p n s m t st = gpt o p n s m 0 st := rfl

theorem get_samples_temperature_irrelevant (task : Task) (o : Oracle)
    (x y : String) (i n : Nat) (s m : Option String) (t : Int) (st : St) :
    get_samples task o x y i n s m t st = get_samples task o x y i n s m 0 st := rfl

theorem get_proposals_temperature_irrelevant (task : Task) (o : Oracle)
    (x y : String) (m : Option String) (t : Int) (st : St) :
    get_proposals task o x y m t st = get_proposals task o x y m 0 st := rfl

theorem get_value_temperature_irrelevant (task : Task) (o : Oracle)
    (x y : String) (n : Nat) (cv : Bool) (m : Option String) (t : Int) (st : St) :
    get_value task o x y n cv m t st = get_value task o x y n cv m 0 st := rfl

theorem get_votes_temperature_irrelevant (task : Task) (o : Oracle)
    (x : String) (ys : List String) (n : Nat) (m : Option String) (t : Int)
    (st : St) : get_votes task o x ys n m t st = get_votes task o x ys n m 0 st := rfl

theorem getValuesGo_temperature_irrelevant (task : Task) (o : Oracle)
    (x : String) (n : Nat) (cv : Bool) (m : Option String) (t : Int) :
    ∀ (ys seen : List String) (st : St),
      getValuesGo task o x n cv m t ys seen st =
        getValuesGo task o x n cv m 0 ys seen st := by
  intro ys
  induction ys with
  | nil => intro seen st; rfl
  | cons y ys ih =>
    intro seen st
    by_cases h : y ∈ seen
    · simp only [getValuesGo, if_pos h, ih]
    · simp only [getValuesGo, if_neg h,
        get_value_temperature_irrelevant task o x y n cv m t st, ih]

theorem get_values_temperature_irrelevant (task : Task) (o : Oracle)
    (x : String) (ys : List String) (n : Nat) (cv : Bool) (m : Option String)
    (t : Int) (st : St) :
    get_values task o x ys n cv m t st = get_values task o x ys n cv m 0 st :=
  getValuesGo_temperature_irrelevant task o x n cv m t ys [] st

theorem mapGen_congr (f g : String → St → List String × St)
    (h : ∀ y st, f y st = g y st) :
    ∀ (ys : List String) (st : St), mapGen f ys st = mapGen g ys st := by
  intro ys
  induction ys with
  | nil => intro st; rfl
  | cons y ys ih => intro st; simp only [mapGen, h, ih]

theorem solveStep_temperature_irrelevant (args : Args) (t2 : Int) (task : Task)
    (o : Oracle) (rc : List Nat → List ℚ → Nat → List Nat) (x : String)
    (tp : Bool) (i : Nat) (ys : List String) (st : St) :
    solveStep { args with temperature := t2 } task o rc x tp i ys st =
      solveStep args task o rc x tp i ys st := by
  simp only [solveStep]
  rw [mapGen_congr _ (fun y st => get_samples task o x y i args.n_generate_sample
        (task.stops i) args.backend args.temperature st)
      (fun y st => get_samples_temperature_irrelevant task o x y i
        args.n_generate_sample (task.stops i) args.backend t2 st),
    mapGen_congr _ (fun y st => get_proposals task o x y args.backend
        args.temperature st)
      (fun y st => get_proposals_temperature_irrelevant task o x y
        args.backend t2 st)]
  simp only [get_votes_temperature_irrelevant, get_values_temperature_irrelevant]

theorem solveLoop_temperature_irrelevant (args : Args) (t2 : Int) (task : Task)
    (o : Oracle) (rc : List Nat → List ℚ → Nat → List Nat) (x : String)
    (tp : Bool) :
    ∀ (idxs : List Nat) (ys : List String) (infos : List StepInfo)
      (last : Option (List String × List ℚ)) (st : St),
      solveLoop { args with temperature := t2 } task o rc x tp idxs ys infos last st =
        solveLoop args task o rc x tp idxs ys infos last st := by
  intro idxs
  induction idxs with
  | nil => intro ys infos last st; rfl
  | cons i rest ih =>
    intro ys infos last st
    simp only [solveLoop, solveStep_temperature_irrelevant]
    cases solveStep args task o rc x tp i ys st with
    | error e => rfl
    | ok r => exact ih _ _ _ _

theorem solveLoop_ok_trace (args : Args) (task : Task) (o : Oracle)
    (rc : List Nat → List ℚ → Nat → List Nat) (x : String) (tp : Bool) :
    ∀ (idxs : List Nat) (ys : List String) (infos0 : List StepInfo)
      (last0 : Option (List String × List ℚ)) (st : St)
      (last1 : Option (List String × List ℚ)) (ys1 : List String)
      (infos1 : List StepInfo) (st1 : St),
      solveLoop args task o rc x tp idxs ys infos0 last0 st =
        .ok (last1, ys1, infos1, st1) →
      infos1.map (fun r => r.step) = infos0.map (fun r => r.step) ++ idxs := by
  intro idxs
  induction idxs with
  | nil =>
    intro ys infos0 last0 st last1 ys1 infos1 st1 h
    simp only [solveLoop, Except.ok.injEq, Prod.mk.injEq] at h
    rw [h.2.2.1.symm, List.append_nil]
  | cons i rest ih =>
    intro ys infos0 last0 st last1 ys1 infos1 st1 h
    rw [solveLoop] at h
    cases hs : solveStep args task o rc x tp i ys st with
    | error e => rw [hs] at h; exact absurd h (by simp)
    | ok r =>
      rw [hs] at h
      obtain ⟨ny, vs, sel, st2⟩ := r
      have := ih _ _ _ _ _ _ _ _ h
      simpa using this

theorem solveLoop_ok_last (args : Args) (task : Task) (o : Oracle)
    (rc : List Nat → List ℚ → Nat → List Nat) (x : String) (tp : Bool) :
    ∀ (idxs : List Nat), idxs ≠ [] →
    ∀ (ys : List String) (infos0 : List StepInfo)
      (last0 : Option (List String × List ℚ)) (st : St)
      (last1 : Option (List String × List ℚ)) (ys1 : List String)
      (infos1 : List StepInfo) (st1 : St),
      solveLoop args task o rc x tp idxs ys infos0 last0 st =
        .ok (last1, ys1, infos1, st1) →
      ∃ r : StepInfo, infos1.getLast? = some r ∧
        last1 = some (r.new_ys, r.values) := by
  intro idxs
  induction idxs with
  | nil => intro h; exact absurd rfl h
  | cons i rest ih =>
    intro _ ys infos0 last0 st last1 ys1 infos1 st1 h
    rw [solveLoop] at h
    cases hs : solveStep args task o rc x tp i ys st with
    | error e => rw [hs] at h; exact absurd h (by simp)
    | ok r =>
      rw [hs] at h
      obtain ⟨ny, vs, sel, st2⟩ := r
      cases rest with
      | nil =>
        simp only [solveLoop, Except.ok.injEq, Prod.mk.injEq] at h
        refine ⟨⟨i, x, ys, ny, vs, sel⟩, ?_, ?_⟩
        · rw [h.2.2.1.symm, List.getLast?_concat]
        · rw [h.1.symm]
      | cons j rest2 => exact ih (by simp) _ _ _ _ _ _ _ _ h

theorem solveStep_ok_of_greedy_value_sample (args : Args) (task : Task)
    (o : Oracle) (rc : List Nat → List ℚ → Nat → List Nat) (x : String)
    (i : Nat) (ys : List String) (st : St)
    (hg : args.method_generate = "sample")
    (he : args.method_evaluate = "value")
    (hs : args.method_select = "greedy") :
    ∃ out, solveStep args task o rc x false i ys st = .ok out := by
  simp only [solveStep, hg, he, hs]
  exact ⟨_, rfl⟩

theorem solveLoop_ok_of_greedy_value_sample (args : Args) (task : Task)
    (o : Oracle) (rc : List Nat → List ℚ → Nat → List Nat) (x : String)
    (hg : args.method_generate = "sample")
    (he : args.method_evaluate = "value")
    (hs : args.method_select = "greedy") :
    ∀ (idxs : List Nat) (ys : List String) (infos0 : List StepInfo)
      (last0 : Option (List String × List ℚ)) (st : St),
      ∃ out, solveLoop args task o rc x false idxs ys infos0 last0 st = .ok out := by
  intro idxs
  induction idxs with
  | nil => intro ys infos0 last0 st; exact ⟨_, rfl⟩
  | cons i rest ih =>
    intro ys infos0 last0 st
    obtain ⟨out1, hout1⟩ :=
      solveStep_ok_of_greedy_value_sample args task o rc x i ys st hg he hs
    obtain ⟨ny, vs, sel, st2⟩ := out1
    rw [solveLoop, hout1]
    exact ih _ _ _ _

theorem get_value_hit (task : Task) (o : Oracle) (x y : String) (n : Nat)
    (m : Option String) (t : Int) (st : St) (v : ℚ)
    (h : cacheLookup (task.value_prompt_wrap x y) st.cache = some v) :
    get_value task o x y n true m t st = (v, st) := by
  rw [get_value]; simp [h]

theorem get_value_miss_eq (task : Task) (o : Oracle) (x y : String) (n : Nat)
    (m : Option String) (t : Int) (st : St)
    (h : cacheLookup (task.value_prompt_wrap x y) st.cache = none) :
    get_value task o x y n true m t st =
      (let r := gpt o (task.value_prompt_wrap x y) n none m t st
       let vals := task.value_outputs_unwrap x y r.1
       let value : ℚ := if vals.isEmpty then 0 else vals.sum / (vals.length : ℚ)
       (value,
        { r.2 with cache := (task.value_prompt_wrap x y, value) :: r.2.cache })) := by
  rw [get_value]; simp [h]

/-! Claim theorems. -/

/-- C3 (amended): probabilistic (sample-mode) selection rejects a degenerate
distribution - it returns an error whenever the score sum is zero, and, for a
negative sum, whenever some score is positive; the claim's blanket statement
for every non-positive sum is refuted by
`sample_select_negative_sum_counterexample` below, since an all-non-positive
score vector with strictly negative sum normalises to a valid probability
vector and selection returns a result. -/
theorem sample_select_degenerate_raises
    (rc : List Nat → List ℚ → Nat → List Nat) (values : List ℚ)
    (ids : List Nat) (size : Nat)
    (h : values.sum = 0 ∨ (values.sum < 0 ∧ ∃ v ∈ values, 0 < v)) :
    ∃ e, sample_select rc values ids size = Except.error e := by
  rcases h with h0 | ⟨hneg, v, hv, hvpos⟩
  · exact ⟨"ValueError: probabilities contain NaN", by simp [sample_select, h0]⟩
  · refine ⟨"ValueError: probabilities are not non-negative", ?_⟩
    rw [sample_select]
    rw [if_neg (by simpa using ne_of_lt hneg)]
    have hdiv : v / values.sum < 0 := div_neg_of_pos_of_neg hvpos hneg
    have hall : ¬ ((values.map (fun w => w / values.sum)).all
        (fun p => decide (0 ≤ p)) = true) := by
      rw [List.all_eq_true]
      intro hforall
      have := hforall _ (List.mem_map_of_mem (fun w => w / values.sum) hv)
      rw [decide_eq_true_iff] at this
      exact absurd hdiv (not_lt.mpr this)
    rw [if_neg hall]

/-- Witness for C3's theorem at the concrete score vector [0]. -/
theorem sample_select_degenerate_raises_witness :
    (([(0 : ℚ)].sum = 0 ∨ ([(0 : ℚ)].sum < 0 ∧ ∃ v ∈ [(0 : ℚ)], 0 < v)) ∧
      ∃ e, sample_select rcHead [(0 : ℚ)] [0] 1 = Except.error e) :=
  ⟨Or.inl (by simp),
   sample_select_degenerate_raises rcHead [(0 : ℚ)] [0] 1 (Or.inl (by simp))⟩

/-- Counterexample to C3 as stated: the score vector [-1, -2] sums to -3 < 0,
yet normalisation yields the valid distribution [1/3, 2/3] and
`np.random.choice` happily returns a draw - no error is raised. -/
theorem sample_select_negative_sum_counterexample :
    ([(-1 : ℚ), -2].sum < 0) ∧
    sample_select rcHead [(-1 : ℚ), -2] [0, 1] 1 = Except.ok [0] := by
  constructor
  · norm_num
  · rw [sample_select]
    rw [if_neg (by norm_num)]
    rw [if_pos (by norm_num [List.all_eq_true])]
    rfl

/-- C5 (confirmed): with caching enabled, a cache hit returns the cached
score with no state change (hence no generator call); and after a miss is
scored, an immediately repeated call for the same prompt returns the same
score with no further state change, so the generator is invoked only the
first time. -/
theorem get_value_cache_semantics (task : Task) (o : Oracle) (x y : String)
    (n : Nat) (m : Option String) (t : Int) (st : St) :
    (∀ v, cacheLookup (task.value_prompt_wrap x y) st.cache = some v →
      get_value task o x y n true m t st = (v, st)) ∧
    (cacheLookup (task.value_prompt_wrap x y) st.cache = none →
      get_value task o x y n true m t
          (get_value task o x y n true m t st).2 =
        get_value task o x y n true m t st) := by
  constructor
  · intro v hv
    exact get_value_hit task o x y n m t st v hv
  · intro hnone
    rw [get_value_miss_eq task o x y n m t st hnone]
    exact get_value_hit task o x y n m t _ _ (by simp [cacheLookup])

/-- Witness for C5's theorem: a fresh prompt, scored then re-requested. -/
theorem get_value_cache_semantics_witness :
    cacheLookup (demoTask.value_prompt_wrap "Q" "A") (St.mk [] []).cache = none ∧
    get_value demoTask demoOracle "Q" "A" 1 true none 0
        (get_value demoTask demoOracle "Q" "A" 1 true none 0 (St.mk [] [])).2 =
      get_value demoTask demoOracle "Q" "A" 1 true none 0 (St.mk [] []) :=
  ⟨rfl,
   (get_value_cache_semantics demoTask demoOracle "Q" "A" 1 none 0
     (St.mk [] [])).2 rfl⟩

/-- C7 (amended): propose-mode generation issues exactly one generator call
per parent and forms one candidate per line of the split generation - empty
lines included, each line rejoined to the parent with a trailing newline; the
claim's "non-empty lines only" restriction is refuted by
`get_proposals_empty_line_counterexample` below. -/
theorem get_proposals_one_call_per_line (task : Task) (o : Oracle)
    (x y : String) (m : Option String) (t : Int) (st : St) :
    (get_proposals task o x y m t st).1 =
      ((((gpt o (task.propose_prompt_wrap x y) 1 none m t st).1.headD "").splitOn
        "\n").map (fun l => y ++ l ++ "\n")) ∧
    (get_proposals task o x y m t st).2.calls =
      st.calls ++ [⟨task.propose_prompt_wrap x y, none, m⟩] ∧
    (get_proposals task o x y m t st).2.cache = st.cache ∧
    (get_proposals task o x y m t st).1.length =
      (((gpt o (task.propose_prompt_wrap x y) 1 none m t st).1.headD "").splitOn
        "\n").length := by
  refine ⟨rfl, rfl, rfl, ?_⟩
  simp [get_proposals]

/-- Counterexample to C7 as stated: a generation "a\n\nb" splits into three
lines, one of them empty, and the empty line still produces the candidate
"y\n"; the claim would predict only two candidates. -/
theorem get_proposals_empty_line_counterexample :
    (get_proposals parseTask blankLineOracle "x" "y" none 0 (St.mk [] [])).1 =
      ["ya\n", "y\n", "yb\n"] ∧
    ("a\n\nb".splitOn "\n") = ["a", "", "b"] ∧
    (get_proposals parseTask blankLineOracle "x" "y" none 0 (St.mk [] [])).1.length ≠ 2 := by
  refine ⟨by with_unfolding_all rfl, by with_unfolding_all rfl, ?_⟩
  rw [show (get_proposals parseTask blankLineOracle "x" "y" none 0
    (St.mk [] [])).1 = ["ya\n", "y\n", "yb\n"] by with_unfolding_all rfl]
  decide

/-- C9 (confirmed): the configuration's temperature never reaches the
generator - `gpt` drops it before calling `completion` - so two
configurations differing only in temperature make `solve` produce identical
results, including an identical request log in the returned state. -/
theorem solve_ignores_temperature (args : Args) (t2 : Int) (task : Task)
    (idx : Nat) (tp : Bool) (o : Oracle)
    (rc : List Nat → List ℚ → Nat → List Nat) (st : St) :
    solve { args with temperature := t2 } task idx tp o rc st =
      solve args task idx tp o rc st := by
  simp only [solve, solveLoop_temperature_irrelevant]

/-- C10 (confirmed): within one evaluation-stage call, repeat occurrences of
a candidate leave the threaded state - the task's value cache and the
generator call log - completely untouched: the final state equals the state
produced by evaluating only the first occurrences.  In particular the 0
score assigned to a repeat is never written into the value cache, so
intra-batch duplicates cannot change what later evaluation-stage calls read
from it. -/
theorem get_values_state_unaffected_by_repeats (task : Task) (o : Oracle)
    (x : String) (ys : List String) (n : Nat) (cv : Bool) (m : Option String)
    (t : Int) (st : St) :
    (get_values task o x ys n cv m t st).2 =
      (get_values task o x (firstOccurrencesFrom [] ys) n cv m t st).2 :=
  getValuesGo_state_firstOccs task o x n cv m t ys [] st

/-- C4 (confirmed): greedy selection over the scored candidate indices
returns exactly min(K, n) indices, pairwise ordered by score descending with
ties broken by the original generation order (the sort is stable), and it is
a pure function, so rerunning it on identical input yields identical
output. -/
theorem greedy_select_spec (values : List ℚ) (K : Nat) :
    (greedy_select values (List.range values.length) K).length =
      min K values.length ∧
    (greedy_select values (List.range values.length) K).Pairwise
      (stableDescRel (fun i => values.getD i 0)) ∧
    greedy_select values (List.range values.length) K =
      greedy_select values (List.range values.length) K := by
  refine ⟨?_, ?_, rfl⟩
  · rw [greedy_select, List.length_take, sortIdxDesc_length, List.length_range]
  · exact List.Pairwise.sublist (List.take_sublist _ _)
      (sortIdxDesc_pairwise _ _ (List.pairwise_lt_range _))

/-- C1 (amended): within one value-mode evaluation-stage call, the returned
score list is parallel to the candidate list; the dedup is keyed by the
candidate text, not by the evaluation prompt: a candidate whose text already
occurred earlier in the batch scores exactly 0, while a candidate with fresh
text is scored normally through `get_value` (even when its evaluation prompt
coincides with an earlier candidate's prompt - the case refuted by
`get_values_prompt_dedup_counterexample`). -/
theorem get_values_dedup_by_candidate_text (task : Task) (o : Oracle)
    (x : String) (ys : List String) (n : Nat) (cv : Bool) (m : Option String)
    (t : Int) (st : St) :
    (get_values task o x ys n cv m t st).1.length = ys.length ∧
    (∀ j (hj : j < ys.length), ys.get ⟨j, hj⟩ ∈ ys.take j →
      (get_values task o x ys n cv m t st).1.getD j 1 = 0) ∧
    (∀ j (hj : j < ys.length), ys.get ⟨j, hj⟩ ∉ ys.take j →
      (get_values task o x ys n cv m t st).1.getD j 1 =
        (get_value task o x (ys.get ⟨j, hj⟩) n cv m t
          (get_values task o x (ys.take j) n cv m t st).2).1) := by
  have key : ∀ j, j < ys.length →
      (get_values task o x ys n cv m t st).1.getD j 1 =
        (getValuesGo task o x n cv m t (ys.drop j) (seenAfter [] (ys.take j))
          (getValuesGo task o x n cv m t (ys.take j) [] st).2).1.getD 0 1 := by
    intro j hj
    have e1 : (get_values task o x ys n cv m t st).1 =
        (getValuesGo task o x n cv m t (ys.take j) [] st).1 ++
          (getValuesGo task o x n cv m t (ys.drop j) (seenAfter [] (ys.take j))
            (getValuesGo task o x n cv m t (ys.take j) [] st).2).1 := by
      have e0 : get_values task o x ys n cv m t st =
          getValuesGo task o x n cv m t (ys.take j ++ ys.drop j) [] st := by
        rw [List.take_append_drop]; rfl
      rw [e0, getValuesGo_append]
    have hlen : (getValuesGo task o x n cv m t (ys.take j) [] st).1.length = j := by
      rw [getValuesGo_length, List.length_take]
      exact min_eq_left (le_of_lt hj)
    rw [e1, List.getD_append_right _ _ _ _ hlen.le, hlen, Nat.sub_self]
  refine ⟨getValuesGo_length task o x n cv m t ys [] st, ?_, ?_⟩
  · intro j hj hrep
    rw [key j hj, List.drop_eq_getElem_cons hj]
    have hmem : ys[j] ∈ seenAfter [] (ys.take j) := by
      rw [mem_seenAfter]
      exact Or.inl (by simpa using hrep)
    simp only [getValuesGo, if_pos hmem, List.getD_cons_zero]
  · intro j hj hfresh
    rw [key j hj, List.drop_eq_getElem_cons hj]
    have hmem : ¬ (ys[j] ∈ seenAfter [] (ys.take j)) := by
      rw [mem_seenAfter]
      rintro (hc | hc)
      · exact hfresh (by simpa using hc)
      · exact absurd hc (List.not_mem_nil _)
    simp only [getValuesGo, if_neg hmem, List.getD_cons_zero]
    rfl

/-- Witness for C1's theorem: in the batch ["a", "a"], the second occurrence
of the candidate "a" scores exactly 0. -/
theorem get_values_dedup_by_candidate_text_witness :
    ((["a", "a"] : List String).get ⟨1, by decide⟩ ∈
      (["a", "a"] : List String).take 1) ∧
    (get_values stripTask onesOracle "X" ["a", "a"] 1 true none 0
      (St.mk [] [])).1.getD 1 1 = 0 :=
  ⟨by decide,
   (get_values_dedup_by_candidate_text stripTask onesOracle "X" ["a", "a"] 1
     true none 0 (St.mk [] [])).2.1 1 (by decide) (by decide)⟩

/-- Counterexample to C1 as stated: the two candidates "a" and "a " are
distinct texts that wrap to the same evaluation prompt (the wrap strips the
candidate, as the thyroid task's sanitiser does), yet the second is NOT
scored 0 - it is scored through the normal path and picks up the cached
score 1 of the first.  The claim's prompt-keyed zero-on-repeat rule would
demand [1, 0]. -/
theorem get_values_prompt_dedup_counterexample :
    stripTask.value_prompt_wrap "X" "a" = stripTask.value_prompt_wrap "X" "a " ∧
    ("a" : String) ≠ "a " ∧
    (get_values stripTask onesOracle "X" ["a", "a "] 1 true none 0
      (St.mk [] [])).1 = [1, 1] ∧
    (1 : ℚ) ≠ 0 := by
  refine ⟨by with_unfolding_all rfl, by decide, by with_unfolding_all rfl,
    by decide⟩

/-- C8 (confirmed): a run of `solve` that completes without a stage raising
produces a trace with exactly one record per configured step, whose step
fields are 0, 1, ..., depth-1 in order. -/
theorem solve_trace_matches_depth (args : Args) (task : Task) (idx : Nat)
    (tp : Bool) (o : Oracle) (rc : List Nat → List ℚ → Nat → List Nat)
    (st : St) (best : Option String) (infos : List StepInfo) (stF : St)
    (hsteps : 1 ≤ task.steps)
    (h : solve args task idx tp o rc st = .ok (best, infos, stF)) :
    infos.map (fun r => r.step) = List.range task.steps ∧
    infos.length = task.steps := by
  rw [solve] at h
  cases hL : solveLoop args task o rc (task.get_input idx) tp
      (List.range task.steps) [""] [] none st with
  | error e => rw [hL] at h; exact absurd h (by simp)
  | ok out =>
    obtain ⟨last, ys1, infos1, st1⟩ := out
    have htr := solveLoop_ok_trace args task o rc (task.get_input idx) tp
      (List.range task.steps) [""] [] none st last ys1 infos1 st1 hL
    rw [hL] at h
    cases last with
    | none => exact absurd h (by simp)
    | some p =>
      obtain ⟨ny, vs⟩ := p
      simp only [Except.ok.injEq, Prod.mk.injEq] at h
      rw [← h.2.1]
      constructor
      · simpa using htr
      · have hlen := congrArg List.length htr
        simpa using hlen


/-- Witness for C8's theorem: the single-step demo run produces a one-record
trace with step field 0. -/
theorem solve_trace_matches_depth_witness :
    ([((⟨0, "Q", [""], ["A"], [1], ["A"]⟩ : StepInfo))].map (fun r => r.step) =
      List.range demoTask.steps) ∧
    ([((⟨0, "Q", [""], ["A"], [1], ["A"]⟩ : StepInfo))].length = demoTask.steps) :=
  solve_trace_matches_depth demoArgs demoTask 0 false demoOracle rcHead
    (St.mk [] []) (some "A")
    [(⟨0, "Q", [""], ["A"], [1], ["A"]⟩ : StepInfo)]
    (St.mk [("VA", 1)] [⟨"Q", none, none⟩, ⟨"VA", none, none⟩])
    (by decide) (by with_unfolding_all rfl)

/-- C2 (amended): whenever `solve` returns, the best final candidate is the
argmax (first index of the maximum score) over the last step's full
new-candidate list, and an empty final candidate list yields the explicit
`none`; moreover with verbose printing disabled and the
sample-generation/value-evaluation/greedy-selection configuration, `solve`
with depth ≥ 1 always returns.  The claim's unconditional "without raising"
is refuted by `solve_empty_final_step_print_raise_counterexample`: with
printing enabled (the source default), an empty final step raises while
unpacking the empty sorted list in the print block. -/
theorem solve_best_is_last_step_argmax (args : Args) (task : Task) (idx : Nat)
    (tp : Bool) (o : Oracle) (rc : List Nat → List ℚ → Nat → List Nat)
    (st : St) :
    (∀ best infos stF,
      solve args task idx tp o rc st = .ok (best, infos, stF) →
      ∃ r : StepInfo, infos.getLast? = some r ∧
        best = (if r.new_ys.isEmpty then none
          else some (r.new_ys.getD (argmaxIdx r.values) ""))) ∧
    (tp = false → args.method_generate = "sample" →
      args.method_evaluate = "value" → args.method_select = "greedy" →
      1 ≤ task.steps →
      ∃ best infos stF, solve args task idx tp o rc st = .ok (best, infos, stF)) := by
  constructor
  · intro best infos stF h
    rw [solve] at h
    cases hL : solveLoop args task o rc (task.get_input idx) tp
        (List.range task.steps) [""] [] none st with
    | error e => rw [hL] at h; exact absurd h (by simp)
    | ok out =>
      obtain ⟨last, ys1, infos1, st1⟩ := out
      rw [hL] at h
      cases last with
      | none => exact absurd h (by simp)
      | some p =>
        obtain ⟨ny, vs⟩ := p
        have hne : List.range task.steps ≠ [] := by
          intro hnil
          rw [hnil] at hL
          simp [solveLoop] at hL
        obtain ⟨r, hr1, hr2⟩ := solveLoop_ok_last args task o rc
          (task.get_input idx) tp (List.range task.steps) hne [""] [] none st
          (some (ny, vs)) ys1 infos1 st1 hL
        have hinj := Option.some.inj hr2
        have hval : ny = r.new_ys ∧ vs = r.values :=
          ⟨congrArg Prod.fst hinj, congrArg Prod.snd hinj⟩
        simp only [Except.ok.injEq, Prod.mk.injEq] at h
        refine ⟨r, ?_, ?_⟩
        · rw [← h.2.1]; exact hr1
        · rw [← h.1, hval.1, hval.2]
  · intro htp hg he hs hsteps
    subst htp
    obtain ⟨out, hout⟩ := solveLoop_ok_of_greedy_value_sample args task o rc
      (task.get_input idx) hg he hs (List.range task.steps) [""] [] none st
    obtain ⟨last, ys1, infos1, st1⟩ := out
    have hne : List.range task.steps ≠ [] := by
      rw [Ne, List.range_eq_nil]
      omega
    obtain ⟨r, hr1, hr2⟩ := solveLoop_ok_last args task o rc
      (task.get_input idx) false (List.range task.steps) hne [""] [] none st
      last ys1 infos1 st1 hout
    rw [solve, hout, hr2]
    exact ⟨_, _, _, rfl⟩

/-- Witness for C2's theorem, both conjuncts instantiated on the demo run:
the returned best candidate "A" is the argmax over the last (only) step's
full candidate list. -/
theorem solve_best_is_last_step_argmax_witness :
    (∃ r : StepInfo,
      [({ step := 0, x := "Q", ys := [""], new_ys := ["A"], values := [1],
          select_new_ys := ["A"] } : StepInfo)].getLast? = some r ∧
      (some "A" : Option String) = (if r.new_ys.isEmpty then none
        else some (r.new_ys.getD (argmaxIdx r.values) ""))) ∧
    (∃ best infos stF, solve demoArgs demoTask 0 false demoOracle rcHead
      (St.mk [] []) = .ok (best, infos, stF)) :=
  ⟨(solve_best_is_last_step_argmax demoArgs demoTask 0 false demoOracle rcHead
      (St.mk [] [])).1 (some "A")
      [(⟨0, "Q", [""], ["A"], [1], ["A"]⟩ : StepInfo)]
      (St.mk [("VA", 1)] [⟨"Q", none, none⟩, ⟨"VA", none, none⟩])
      (by with_unfolding_all rfl),
   (solve_best_is_last_step_argmax demoArgs demoTask 0 false demoOracle rcHead
      (St.mk [] [])).2 rfl rfl rfl rfl (by decide)⟩

/-- Counterexample to C2 as stated: with depth 1 and a generation count of 0
the final step produces zero candidates; with verbose printing disabled
`solve` indeed returns the explicit `none`, but with printing enabled (the
source default `to_print=True`) the very same run raises instead of
returning - refuting the unconditional "without raising". -/
theorem solve_empty_final_step_print_raise_counterexample :
    1 ≤ demoTask.steps ∧
    solve { demoArgs with n_generate_sample := 0 } demoTask 0 false demoOracle
        rcHead (St.mk [] []) =
      .ok (none, [(⟨0, "Q", [""], [], [], []⟩ : StepInfo)], St.mk [] []) ∧
    solve { demoArgs with n_generate_sample := 0 } demoTask 0 true demoOracle
        rcHead (St.mk [] []) =
      .error ("ValueError: not enough values to unpack", St.mk [] []) :=
  ⟨by decide, by with_unfolding_all rfl, by with_unfolding_all rfl⟩

/-- C6 (amended): an unparseable generator output is non-fatal: the thyroid
parser scores that single sample 0.0, and the reduced scalar is the
arithmetic mean of the per-sample scores over ALL M samples - the defaulted
zeros included in the denominator - so the scalar equals (sum of per-sample
parses) / M.  The claim's "averaging proceeds over the remaining valid
samples" reading is refuted by `get_value_parse_failure_counterexample`,
where the code returns 1/2 while the mean over the valid samples alone
would be 1. -/
theorem get_value_mean_includes_invalid_samples (task : Task) (o : Oracle)
    (x y : String) (M : Nat) (m : Option String) (t : Int) (st : St)
    (hunwrap : task.value_outputs_unwrap = thyroid_value_outputs_unwrap)
    (hmiss : cacheLookup (task.value_prompt_wrap x y) st.cache = none)
    (hM : 1 ≤ M) :
    (get_value task o x y M true m t st).1 =
      ((gpt o (task.value_prompt_wrap x y) M none m t st).1.map
        thyroidParse).sum / (M : ℚ) := by
  rw [get_value_miss_eq task o x y M m t st hmiss]
  simp only [hunwrap, thyroid_value_outputs_unwrap]
  have hlen : ((gpt o (task.value_prompt_wrap x y) M none m t st).1.map
      thyroidParse).length = M := by
    rw [List.length_map, gpt_length]
  have hne : ¬ (((gpt o (task.value_prompt_wrap x y) M none m t st).1.map
      thyroidParse).isEmpty = true) := by
    rw [List.isEmpty_iff]
    intro hemp
    rw [hemp] at hlen
    simp at hlen
    omega
  rw [if_neg hne, hlen]

/-- Witness for C6's theorem at the concrete parse-failure run. -/
theorem get_value_mean_includes_invalid_samples_witness :
    cacheLookup (parseTask.value_prompt_wrap "x" "y") (St.mk [] []).cache =
      none ∧
    (get_value parseTask parseOracle "x" "y" 2 true none 0 (St.mk [] [])).1 =
      ((gpt parseOracle (parseTask.value_prompt_wrap "x" "y") 2 none none 0
        (St.mk [] [])).1.map thyroidParse).sum / (2 : ℚ) :=
  ⟨rfl,
   get_value_mean_includes_invalid_samples parseTask parseOracle "x" "y" 2
     none 0 (St.mk [] []) rfl rfl (by decide)⟩

/-- Counterexample to C6's "averaging proceeds over the remaining valid
samples": on raw outputs ["1", "hello"], the code's scalar is 1/2 (the
defaulted 0.0 of the unparseable sample counts in the denominator), while
the mean over the valid samples alone is 1. -/
theorem get_value_parse_failure_counterexample :
    (get_value parseTask parseOracle "x" "y" 2 true none 0 (St.mk [] [])).1 =
      1/2 ∧
    (gpt parseOracle "P" 2 none none 0 (St.mk [] [])).1 = ["1", "hello"] ∧
    meanOverValidSamples ["1", "hello"] = 1 ∧
    ((1 : ℚ)/2) ≠ 1 :=
  ⟨by with_unfolding_all rfl, by with_unfolding_all rfl,
   by with_unfolding_all rfl, by norm_num⟩

end ToT
